import Mathlib

/-!
Shallow embedding of the offline service worker at src/www/sw.js.

The worker's collaborators (network fetch, regex engine, connected
clients, the localforage key/value store, the CacheStorage put
primitive) are abstracted as an environment of oracles; the mutable
CacheStorage contents and the persisted lazy-load list form the state.
Each definition below mirrors one function of the source file and keeps
its name.  Fetches issued by the update path are recorded in a log of
events carrying the URL and whether cache-bypass was requested, so that
bypass policy is observable.
-/

set_option autoImplicit false
set_option maxRecDepth 40000

namespace SW

/-- String prefix test (url.startsWith in the source), phrased over the
character lists so that it evaluates by kernel reduction. -/
def strStartsWith (s p : String) : Bool := p.data.isPrefixOf s.data

/-- A response, restricted to the fields the worker inspects. -/
structure Response where
  ok : Bool
  status : Nat
  body : String
deriving DecidableEq

/-- The parsed offline.js manifest: version, file list, optional lazy-load
pattern list (none models an absent `lazyLoad` member). -/
structure Manifest where
  version : String
  fileList : List String
  lazyLoad : Option (List String)
deriving DecidableEq

/-- A generation (cache) store: URL-to-response entries in insertion order. -/
abbrev Cache := List (String × Response)

/-- cache.match: the first entry whose request URL equals the query. -/
def cacheMatch : Cache → String → Option Response
  | [], _ => none
  | e :: rest, u => if e.1 = u then some e.2 else cacheMatch rest u

/-- cache.put: overwrite the entry matching the URL, else append a new one. -/
def cachePut : Cache → String → Response → Cache
  | [], u, r => [(u, r)]
  | e :: rest, u, r => if e.1 = u then (u, r) :: rest else e :: cachePut rest u r

/-- The durable worker state: the CacheStorage contents as a name-to-cache
list in creation order (caches.keys order), plus the lazy-load list kept in
the key/value store (none models a store that was never written). -/
structure SWState where
  caches : List (String × Cache)
  lazy : Option (List String)
deriving DecidableEq

/-- Look a cache up by name in the CacheStorage list. -/
def findCache : List (String × Cache) → String → Option Cache
  | [], _ => none
  | e :: rest, n => if e.1 = n then some e.2 else findCache rest n

/-- cache.put against the named cache inside the CacheStorage list. -/
def putInCaches : List (String × Cache) → String → String → Response → List (String × Cache)
  | [], _, _, _ => []
  | e :: rest, n, u, r =>
    if e.1 = n then (e.1, cachePut e.2 u r) :: putInCaches rest n u r
    else e :: putInCaches rest n u r

/-- caches.keys(): names in creation order. -/
def cacheNames (st : SWState) : List String := st.caches.map Prod.fst

/-- caches.has(n). -/
def cachesHas (st : SWState) (n : String) : Bool := (findCache st.caches n).isSome

/-- caches.open(n): opening a missing cache creates it empty, appended last
(a freshly created cache is the newest in creation order). -/
def cachesOpen (st : SWState) (n : String) : SWState :=
  if cachesHas st n then st else { st with caches := st.caches ++ [(n, [])] }

/-- The contents of the named cache (empty if absent). -/
def getCache (st : SWState) (n : String) : Cache := (findCache st.caches n).getD []

/-- cache.put lifted to the state. -/
def cachePutInState (st : SWState) (n u : String) (r : Response) : SWState :=
  { st with caches := putInCaches st.caches n u r }

/-- Promise.all of caches.delete over a list of names. -/
def cachesDeleteAll (st : SWState) (names : List String) : SWState :=
  { st with caches := st.caches.filter (fun e => decide (e.1 ∉ names)) }

/-- The host collaborators the worker calls out to:
`net url bypass` is the network (fetchWithBypass with the given flag),
`parse` is response.json() on a manifest body, `clientUrls` are the
URLs of clients.matchAll used by GetMainPageUrl, `clientCount` is the
clients.matchAll().length consulted by GetCacheNameToUse, `putOk n u`
says whether cache.put of URL u into cache n succeeds (false models a
quota error), and `regexCompiles` / `regexTest` model `new RegExp(p)`
construction success and `.test(url)`. -/
structure Env where
  scope : String
  net : String → Bool → Response
  parse : String → Option Manifest
  clientUrls : List String
  clientCount : Nat
  putOk : String → String → Bool
  regexCompiles : String → Bool
  regexTest : String → String → Bool

def OFFLINE_DATA_FILE : String := "offline.js"

/-- GetCacheBaseName: the scope-qualified constant name stem. -/
def GetCacheBaseName (env : Env) : String := "c2offline" ++ "-" ++ env.scope

/-- GetCacheVersionName. -/
def GetCacheVersionName (env : Env) (version : String) : String :=
  GetCacheBaseName env ++ "-v" ++ version

/-- GetAvailableCacheNames: caches.keys() filtered to our base name, in
creation order. -/
def GetAvailableCacheNames (env : Env) (st : SWState) : List String :=
  (cacheNames st).filter (fun n => strStartsWith n (GetCacheBaseName env))

/-- IsUpdatePending: two or more available caches. -/
def IsUpdatePending (env : Env) (st : SWState) : Bool :=
  decide (2 ≤ (GetAvailableCacheNames env st).length)

/-- The loop body of GetMainPageUrl over clients.matchAll results: strip the
scope, skip empty and "/", restore a leading "/" on a bare query string. -/
def MainPageUrlFromClients (scope : String) : List String → String
  | [] => ""
  | c :: rest =>
    let url := if strStartsWith c scope then c.drop scope.length else c
    if url ≠ "" ∧ url ≠ "/" then
      if strStartsWith url "?" then "/" ++ url else url
    else MainPageUrlFromClients scope rest

/-- GetMainPageUrl: first non-root client URL relative to scope, "" if none. -/
def GetMainPageUrl (env : Env) : String :=
  MainPageUrlFromClients env.scope env.clientUrls

/-- The scan of IsUrlInLazyLoadList: the single try/catch wraps the whole
for-loop, so the first pattern whose RegExp construction throws aborts the
scan and the function returns false. -/
def scanLazyList (compiles : String → Bool) (test : String → String → Bool)
    (url : String) : List String → Bool
  | [] => false
  | p :: rest =>
    if compiles p then
      if test p url then true else scanLazyList compiles test url rest
    else false

/-- IsUrlInLazyLoadList: false on a missing list, else scan the patterns. -/
def IsUrlInLazyLoadList (compiles : String → Bool) (test : String → String → Bool)
    (url : String) (lazyLoadList : Option (List String)) : Bool :=
  match lazyLoadList with
  | none => false
  | some l => scanLazyList compiles test url l

/-- Modelled from the spec (section 4.5 / error table): the per-pattern-catch
reading of the matcher, in which a pattern that fails to compile is skipped
individually and the remaining patterns are still tested.  Used only to
compare against the source's IsUrlInLazyLoadList. -/
def IsUrlInLazyLoadListPerPattern (compiles : String → Bool)
    (test : String → String → Bool) (url : String)
    (lazyLoadList : Option (List String)) : Bool :=
  match lazyLoadList with
  | none => false
  | some l => l.any (fun p => compiles p && test p url)

/-- A fetch issued through fetchWithBypass: the URL and the bypass flag. -/
structure FetchEvent where
  url : String
  bypass : Bool
deriving DecidableEq

inductive PopulateFailure where
  | fetchNotOk
  | writeError
deriving DecidableEq

/-- Outcome of CreateCacheFromFileList: the error if it threw, the resulting
state, and the fetches it issued. -/
structure PopResult where
  err : Option PopulateFailure
  st : SWState
  log : List FetchEvent
deriving DecidableEq

/-- Write every (URL, response) pair into the named cache (Promise.all of
cache.put calls). -/
def putAllIntoCache (st : SWState) (n : String) (l : List (String × Response)) : SWState :=
  l.foldl (fun s p => cachePutInState s n p.1 p.2) st

/-- CreateCacheFromFileList: fetch all files concurrently (each through
fetchWithBypass with the given flag); if any response is not ok, throw
without opening the cache; otherwise open the cache and put every pair;
if a put fails, delete the cache and rethrow. -/
def CreateCacheFromFileList (env : Env) (st : SWState) (cacheName : String)
    (fileList : List String) (bypassCache : Bool) : PopResult :=
  let responses := fileList.map (fun u => env.net u bypassCache)
  let log := fileList.map (fun u => FetchEvent.mk u bypassCache)
  if responses.all (fun r => r.ok) then
    let st1 := cachesOpen st cacheName
    if fileList.all (fun u => env.putOk cacheName u) then
      ⟨none, putAllIntoCache st1 cacheName (fileList.zip responses), log⟩
    else
      ⟨some PopulateFailure.writeError, cachesDeleteAll st1 [cacheName], log⟩
  else
    ⟨some PopulateFailure.fetchNotOk, st, log⟩

/-- Broadcast message types posted over the channel. -/
inductive Message where
  | downloading
  | downloadingUpdate (version : String)
  | updateReady (version : String)
  | updatePending
  | upToDate
  | offlineReady
deriving DecidableEq

/-- Outcome of UpdateCheck: resulting state, fetch log, broadcasts in order. -/
structure UCResult where
  st : SWState
  log : List FetchEvent
  msgs : List Message
deriving DecidableEq

/-- The in-place file-list mutation of UpdateCheck: unshift "./", then
unshift the main page URL when it was found and is not already present. -/
def buildFileList (mainPageUrl : String) (fileList : List String) : List String :=
  let l1 := "./" :: fileList
  if mainPageUrl ≠ "" ∧ mainPageUrl ∉ l1 then mainPageUrl :: l1 else l1

/-- UpdateCheck: fetch offline.js with bypass always on; on a non-ok
response or a parse failure, the surrounding catch swallows the error
(state unchanged, nothing broadcast beyond the warning).  If the versioned
cache already exists, broadcast update-pending or up-to-date and stop.
Otherwise build the file list, broadcast downloading (first check) or
downloading-update, persist the lazy-load list when the manifest supplied
one, and populate with bypass on iff this is not the first check; a
populate failure is swallowed by the catch. -/
def UpdateCheck (env : Env) (st : SWState) (isFirst : Bool) : UCResult :=
  let response := env.net OFFLINE_DATA_FILE true
  let log0 : List FetchEvent := [⟨OFFLINE_DATA_FILE, true⟩]
  if response.ok then
    match env.parse response.body with
    | none => ⟨st, log0, []⟩
    | some data =>
      let currentCacheName := GetCacheVersionName env data.version
      if cachesHas st currentCacheName then
        if IsUpdatePending env st then ⟨st, log0, [Message.updatePending]⟩
        else ⟨st, log0, [Message.upToDate]⟩
      else
        let mainPageUrl := GetMainPageUrl env
        let fileList := buildFileList mainPageUrl data.fileList
        let msg1 := if isFirst then Message.downloading
                    else Message.downloadingUpdate data.version
        let st1 := match data.lazyLoad with
          | some l => { st with lazy := some l }
          | none => st
        let pr := CreateCacheFromFileList env st1 currentCacheName fileList (!isFirst)
        match pr.err with
        | some _ => ⟨pr.st, log0 ++ pr.log, [msg1]⟩
        | none =>
          if IsUpdatePending env pr.st then
            ⟨pr.st, log0 ++ pr.log, [msg1, Message.updateReady data.version]⟩
          else
            ⟨pr.st, log0 ++ pr.log, [msg1, Message.offlineReady]⟩
  else ⟨st, log0, []⟩

/-- Outcome of GetCacheNameToUse: the chosen cache name and the state after
any eviction. -/
structure RouteResult where
  name : String
  st : SWState
deriving DecidableEq

/-- GetCacheNameToUse: with a single cache or a non-navigation request,
the oldest (first) cache; on a navigation with several caches, still the
oldest if more than one client is connected; otherwise delete every cache
except the last and return the last (newest).  The empty-list case never
arises from HandleFetch, which checks emptiness first; headD/getLastD
return "" there. -/
def GetCacheNameToUse (env : Env) (st : SWState) (availableCacheNames : List String)
    (doUpdateCheck : Bool) : RouteResult :=
  if availableCacheNames.length == 1 || !doUpdateCheck then
    ⟨availableCacheNames.headD "", st⟩
  else if 1 < env.clientCount then
    ⟨availableCacheNames.headD "", st⟩
  else
    ⟨availableCacheNames.getLastD "",
     cachesDeleteAll st availableCacheNames.dropLast⟩

/-- Outcome of HandleFetch: the response, the resulting state, and whether a
plain network fetch of the request was performed. -/
structure FetchOutcome where
  response : Response
  st : SWState
  networkFetched : Bool
deriving DecidableEq

/-- HandleFetch: with no available cache, go to the network.  Otherwise pick
the cache via GetCacheNameToUse, open it, return a stored match if any;
on a miss, fetch from the network and read the lazy-load list, and if the
URL is in the lazy-load list try to put a clone into the cache, ignoring a
put failure; the network response is returned in every miss case. -/
def HandleFetch (env : Env) (st : SWState) (reqUrl : String)
    (doUpdateCheck : Bool) : FetchOutcome :=
  let availableCacheNames := GetAvailableCacheNames env st
  if availableCacheNames.isEmpty then
    ⟨env.net reqUrl false, st, true⟩
  else
    let rr := GetCacheNameToUse env st availableCacheNames doUpdateCheck
    let st1 := cachesOpen rr.st rr.name
    match cacheMatch (getCache st1 rr.name) reqUrl with
    | some r => ⟨r, st1, false⟩
    | none =>
      let fetchResponse := env.net reqUrl false
      if IsUrlInLazyLoadList env.regexCompiles env.regexTest reqUrl st1.lazy then
        if env.putOk rr.name reqUrl then
          ⟨fetchResponse, cachePutInState st1 rr.name reqUrl fetchResponse, true⟩
        else
          ⟨fetchResponse, st1, true⟩
      else ⟨fetchResponse, st1, true⟩

/-! ## Concrete material used by the witnesses -/

/-- A fixed environment for witnesses: the network fails on "bad" only,
every manifest body parses to manifestW, puts fail on "wfail" only, the
pattern "(" fails to compile, and a pattern matches iff it is "hit". -/
def envA : Env where
  scope := "https://example.com/"
  net := fun u _ => if u == "bad" then ⟨false, 404, "x"⟩ else ⟨true, 200, u⟩
  parse := fun _ => some ⟨"2", ["a.js", "b.js"], none⟩
  clientUrls := []
  clientCount := 1
  putOk := fun _ u => !(u == "wfail")
  regexCompiles := fun p => !(p == "(")
  regexTest := fun p _ => p == "hit"

def manifestW : Manifest := ⟨"2", ["a.js", "b.js"], none⟩

def st0 : SWState := ⟨[], none⟩

def gen1 : String := "c2offline-https://example.com/-v1"

def gen2 : String := "c2offline-https://example.com/-v2"

/-! ## Helper lemmas -/

theorem findCache_filter_not_mem (l : List (String × Cache)) (names : List String)
    (n : String) (hn : n ∈ names) :
    findCache (l.filter (fun e => decide (e.1 ∉ names))) n = none := by
  induction l with
  | nil => rfl
  | cons e rest ih =>
    by_cases he : e.1 ∈ names
    · have hd : decide (e.1 ∉ names) = false := by simp [he]
      rw [List.filter_cons, hd]
      simpa using ih
    · have hd : decide (e.1 ∉ names) = true := by simp [he]
      have hne : e.1 ≠ n := fun h => he (h ▸ hn)
      rw [List.filter_cons, hd]
      simpa [findCache, hne] using ih

theorem cachesHas_deleteAll (st : SWState) (names : List String) (n : String)
    (hn : n ∈ names) :
    cachesHas (cachesDeleteAll st names) n = false := by
  have h := findCache_filter_not_mem st.caches names n hn
  simp only [cachesHas, cachesDeleteAll]
  rw [h]
  rfl

theorem map_fst_filter_not_mem (names : List String) (l : List (String × Cache)) :
    (l.filter (fun e => decide (e.1 ∉ names))).map Prod.fst
      = (l.map Prod.fst).filter (fun n => decide (n ∉ names)) := by
  induction l with
  | nil => rfl
  | cons e rest ih =>
    by_cases he : e.1 ∈ names
    · have hd : decide (e.1 ∉ names) = false := by simp [he]
      simp only [List.filter_cons, List.map_cons]
      rw [hd]
      simpa using ih
    · have hd : decide (e.1 ∉ names) = true := by simp [he]
      simp only [List.filter_cons, List.map_cons]
      rw [hd]
      simpa using ih

theorem filter_swap {α : Type} (p q : α → Bool) (l : List α) :
    (l.filter p).filter q = (l.filter q).filter p := by
  induction l with
  | nil => rfl
  | cons a t ih =>
    by_cases hp : p a = true <;> by_cases hq : q a = true <;>
      simp [List.filter_cons, hp, hq, ih]

theorem availableNames_deleteAll (env : Env) (st : SWState) (names : List String) :
    GetAvailableCacheNames env (cachesDeleteAll st names)
      = (GetAvailableCacheNames env st).filter (fun n => decide (n ∉ names)) := by
  simp only [GetAvailableCacheNames, cacheNames, cachesDeleteAll]
  rw [map_fst_filter_not_mem]
  exact filter_swap _ _ _

theorem filter_keeps_only_last (l : List String) (hnd : l.Nodup) (hne : l ≠ []) :
    l.filter (fun n => decide (n ∉ l.dropLast)) = [l.getLastD ""] := by
  induction l with
  | nil => exact absurd rfl hne
  | cons a t ih =>
    cases t with
    | nil => simp
    | cons b u =>
      have hna : a ∉ b :: u := (List.nodup_cons.mp hnd).1
      have hdl : (a :: b :: u).dropLast = a :: (b :: u).dropLast := rfl
      have hstep : (b :: u).filter (fun n => decide (n ∉ (a :: b :: u).dropLast))
          = (b :: u).filter (fun n => decide (n ∉ (b :: u).dropLast)) := by
        apply List.filter_congr
        intro n hn
        have hne2 : n ≠ a := fun h => hna (h ▸ hn)
        simp [hdl, hne2]
      have hmem : a ∈ (a :: b :: u).dropLast := by
        rw [hdl]
        exact List.mem_cons_self a _
      have hda : decide (a ∉ (a :: b :: u).dropLast) = false :=
        decide_eq_false (fun h => h hmem)
      rw [List.filter_cons, hda]
      simp only [Bool.false_eq_true, if_false]
      rw [hstep, ih (List.nodup_cons.mp hnd).2 (by simp)]
      simp [List.getLastD_cons]

theorem findCache_append_none (l l2 : List (String × Cache)) (n : String)
    (h : findCache l n = none) : findCache (l ++ l2) n = findCache l2 n := by
  induction l with
  | nil => rfl
  | cons e rest ih =>
    by_cases he : e.1 = n
    · simp [findCache, he] at h
    · simp only [List.cons_append, findCache, if_neg he] at h ⊢
      exact ih h

theorem cachesHas_open_self (st : SWState) (n : String) :
    cachesHas (cachesOpen st n) n = true := by
  unfold cachesOpen
  by_cases h : cachesHas st n = true
  · rw [if_pos h]; exact h
  · rw [if_neg h]
    have hn : findCache st.caches n = none := by
      unfold cachesHas at h
      cases hf : findCache st.caches n with
      | none => rfl
      | some c => rw [hf] at h; simp at h
    show (findCache (st.caches ++ [(n, [])]) n).isSome = true
    rw [findCache_append_none _ _ _ hn]
    simp [findCache]

theorem cacheMatch_put_self (c : Cache) (u : String) (r : Response) :
    cacheMatch (cachePut c u r) u = some r := by
  induction c with
  | nil => simp [cachePut, cacheMatch]
  | cons e rest ih =>
    by_cases he : e.1 = u
    · simp [cachePut, he, cacheMatch]
    · simp [cachePut, he, cacheMatch, ih]

theorem findCache_putInCaches (l : List (String × Cache)) (n u : String) (r : Response) :
    findCache (putInCaches l n u r) n = (findCache l n).map (fun c => cachePut c u r) := by
  induction l with
  | nil => rfl
  | cons e rest ih =>
    by_cases he : e.1 = n
    · simp [putInCaches, he, findCache]
    · simp [putInCaches, he, findCache, ih]

theorem getCache_putInState_self (st : SWState) (n u : String) (r : Response)
    (h : cachesHas st n = true) :
    getCache (cachePutInState st n u r) n = cachePut (getCache st n) u r := by
  unfold getCache cachePutInState
  cases hf : findCache st.caches n with
  | none =>
    unfold cachesHas at h
    rw [hf] at h
    simp at h
  | some c =>
    show (findCache (putInCaches st.caches n u r) n).getD [] = _
    rw [findCache_putInCaches, hf]
    rfl

/-! ## Claim C2: single-instance navigation upgrade -/

/-- Claim C2: on a navigation request with at least two generations and at
most one connected client, GetCacheNameToUse returns the newest (last in
creation order) generation and hard-deletes every other one: afterwards
the available cache list is exactly that one name, and every subsequent
request (navigation or not) is routed to it with no further deletion. -/
theorem navigation_single_client_evicts_to_newest (env : Env) (st : SWState)
    (rr : RouteResult)
    (hnd : (cacheNames st).Nodup)
    (h2 : 2 ≤ (GetAvailableCacheNames env st).length)
    (hc : env.clientCount ≤ 1)
    (hrr : rr = GetCacheNameToUse env st (GetAvailableCacheNames env st) true) :
    rr.name = (GetAvailableCacheNames env st).getLastD ""
    ∧ GetAvailableCacheNames env rr.st = [rr.name]
    ∧ ∀ du : Bool,
        GetCacheNameToUse env rr.st (GetAvailableCacheNames env rr.st) du
          = ⟨rr.name, rr.st⟩ := by
  have hrr2 : rr = ⟨(GetAvailableCacheNames env st).getLastD "",
      cachesDeleteAll st (GetAvailableCacheNames env st).dropLast⟩ := by
    rw [hrr]
    unfold GetCacheNameToUse
    have hlen : ¬ ((GetAvailableCacheNames env st).length = 1) := by omega
    have hcc : ¬ (1 < env.clientCount) := by omega
    simp [hlen, hcc]
  have havail : GetAvailableCacheNames env rr.st
      = [(GetAvailableCacheNames env st).getLastD ""] := by
    rw [hrr2]
    rw [availableNames_deleteAll]
    exact filter_keeps_only_last _ (hnd.filter _)
      (by intro h; rw [h] at h2; simp at h2)
  refine ⟨by rw [hrr2], ?_, ?_⟩
  · rw [havail, hrr2]
  · intro du
    have hn : rr.name = (GetAvailableCacheNames env st).getLastD "" := by rw [hrr2]
    rw [havail]
    unfold GetCacheNameToUse
    simp [hn]

/-- Witness for C2 at a concrete input: generations gen1 (older) and gen2
(newer), one connected client, a navigation request: gen2 is chosen, gen1
is deleted, and afterwards only gen2 is listed and routed to. -/
theorem navigation_single_client_evicts_to_newest_witness :
    (GetCacheNameToUse envA ⟨[(gen1, []), (gen2, [])], none⟩
        (GetAvailableCacheNames envA ⟨[(gen1, []), (gen2, [])], none⟩) true).name
      = (GetAvailableCacheNames envA ⟨[(gen1, []), (gen2, [])], none⟩).getLastD ""
    ∧ GetAvailableCacheNames envA
        (GetCacheNameToUse envA ⟨[(gen1, []), (gen2, [])], none⟩
          (GetAvailableCacheNames envA ⟨[(gen1, []), (gen2, [])], none⟩) true).st
      = [(GetCacheNameToUse envA ⟨[(gen1, []), (gen2, [])], none⟩
          (GetAvailableCacheNames envA ⟨[(gen1, []), (gen2, [])], none⟩) true).name]
    ∧ ∀ du : Bool,
        GetCacheNameToUse envA
          (GetCacheNameToUse envA ⟨[(gen1, []), (gen2, [])], none⟩
            (GetAvailableCacheNames envA ⟨[(gen1, []), (gen2, [])], none⟩) true).st
          (GetAvailableCacheNames envA
            (GetCacheNameToUse envA ⟨[(gen1, []), (gen2, [])], none⟩
              (GetAvailableCacheNames envA ⟨[(gen1, []), (gen2, [])], none⟩) true).st) du
        = ⟨(GetCacheNameToUse envA ⟨[(gen1, []), (gen2, [])], none⟩
              (GetAvailableCacheNames envA ⟨[(gen1, []), (gen2, [])], none⟩) true).name,
           (GetCacheNameToUse envA ⟨[(gen1, []), (gen2, [])], none⟩
              (GetAvailableCacheNames envA ⟨[(gen1, []), (gen2, [])], none⟩) true).st⟩ :=
  navigation_single_client_evicts_to_newest envA ⟨[(gen1, []), (gen2, [])], none⟩ _
    (by decide) (by decide) (by decide) rfl

/-! ## Claim C9: a cache hit never touches the network -/

/-- Claim C9: when the selected generation holds a stored response for the
request, HandleFetch returns exactly that stored response and performs no
network fetch. -/
theorem cache_hit_never_fetches (env : Env) (st : SWState) (reqUrl : String)
    (du : Bool) (r : Response) (rr : RouteResult)
    (hne : (GetAvailableCacheNames env st).isEmpty = false)
    (hrr : rr = GetCacheNameToUse env st (GetAvailableCacheNames env st) du)
    (hhit : cacheMatch (getCache (cachesOpen rr.st rr.name) rr.name) reqUrl = some r) :
    HandleFetch env st reqUrl du = ⟨r, cachesOpen rr.st rr.name, false⟩ := by
  subst hrr
  unfold HandleFetch
  simp [hne, hhit]

def stHit : SWState := ⟨[(gen1, [("https://example.com/a.js", ⟨true, 200, "A"⟩)])], none⟩

/-- Witness for C9 at a concrete input: one generation storing a.js; the
request for it is answered from the cache with no network fetch. -/
theorem cache_hit_never_fetches_witness :
    HandleFetch envA stHit "https://example.com/a.js" false
      = ⟨⟨true, 200, "A"⟩,
         cachesOpen (GetCacheNameToUse envA stHit (GetAvailableCacheNames envA stHit) false).st
           (GetCacheNameToUse envA stHit (GetAvailableCacheNames envA stHit) false).name,
         false⟩ :=
  cache_hit_never_fetches envA stHit "https://example.com/a.js" false ⟨true, 200, "A"⟩ _
    (by decide) rfl (by decide)

/-! ## Claim C4: miss handling and lazy caching -/

/-- Claim C4: on a miss in the selected generation, HandleFetch fetches the
request from the network and returns that response; when the URL is in the
lazy-load list and the put succeeds, the response is also stored in the
selected generation and is retrievable from it afterwards; when the put
fails, the failure is swallowed and the state is left as it was; when the
URL matches no pattern, nothing is persisted. -/
theorem miss_fetches_network_and_lazily_caches (env : Env) (st : SWState)
    (reqUrl : String) (du : Bool) (rr : RouteResult) (st1 : SWState)
    (hne : (GetAvailableCacheNames env st).isEmpty = false)
    (hrr : rr = GetCacheNameToUse env st (GetAvailableCacheNames env st) du)
    (hst1 : st1 = cachesOpen rr.st rr.name)
    (hmiss : cacheMatch (getCache st1 rr.name) reqUrl = none) :
    (HandleFetch env st reqUrl du).networkFetched = true
    ∧ (HandleFetch env st reqUrl du).response = env.net reqUrl false
    ∧ (IsUrlInLazyLoadList env.regexCompiles env.regexTest reqUrl st1.lazy = true →
        env.putOk rr.name reqUrl = true →
        cacheMatch (getCache (HandleFetch env st reqUrl du).st rr.name) reqUrl
          = some (env.net reqUrl false))
    ∧ (IsUrlInLazyLoadList env.regexCompiles env.regexTest reqUrl st1.lazy = true →
        env.putOk rr.name reqUrl = false →
        (HandleFetch env st reqUrl du).st = st1)
    ∧ (IsUrlInLazyLoadList env.regexCompiles env.regexTest reqUrl st1.lazy = false →
        (HandleFetch env st reqUrl du).st = st1) := by
  have hopen : cachesHas st1 rr.name = true := by
    rw [hst1]
    exact cachesHas_open_self _ _
  have hH : HandleFetch env st reqUrl du =
      (if IsUrlInLazyLoadList env.regexCompiles env.regexTest reqUrl st1.lazy then
        if env.putOk rr.name reqUrl then
          ⟨env.net reqUrl false, cachePutInState st1 rr.name reqUrl (env.net reqUrl false), true⟩
        else ⟨env.net reqUrl false, st1, true⟩
      else ⟨env.net reqUrl false, st1, true⟩ : FetchOutcome) := by
    subst hrr
    subst hst1
    unfold HandleFetch
    simp [hne, hmiss]
  refine ⟨?_, ?_, ?_, ?_, ?_⟩
  · rw [hH]
    split
    · split <;> rfl
    · rfl
  · rw [hH]
    split
    · split <;> rfl
    · rfl
  · intro hl hp
    rw [hH, if_pos hl, if_pos hp]
    show cacheMatch
      (getCache (cachePutInState st1 rr.name reqUrl (env.net reqUrl false)) rr.name) reqUrl
        = some (env.net reqUrl false)
    rw [getCache_putInState_self _ _ _ _ hopen]
    exact cacheMatch_put_self _ _ _
  · intro hl hp
    rw [hH, if_pos hl, if_neg (by simp [hp])]
  · intro hl
    rw [hH, if_neg (by simp [hl])]

def stMiss : SWState := ⟨[(gen1, [])], some ["hit"]⟩

def rrMiss : RouteResult :=
  GetCacheNameToUse envA stMiss (GetAvailableCacheNames envA stMiss) false

def st1Miss : SWState := cachesOpen rrMiss.st rrMiss.name

/-- Witness for C4 at a concrete input: an empty generation with lazy list
["hit"] (every URL matches under envA); a miss is fetched from the network,
returned, and stored retrievably in the generation. -/
theorem miss_fetches_network_and_lazily_caches_witness :
    (HandleFetch envA stMiss "https://example.com/p.png" false).networkFetched = true
    ∧ (HandleFetch envA stMiss "https://example.com/p.png" false).response
        = envA.net "https://example.com/p.png" false
    ∧ (IsUrlInLazyLoadList envA.regexCompiles envA.regexTest "https://example.com/p.png"
          st1Miss.lazy = true →
        envA.putOk rrMiss.name "https://example.com/p.png" = true →
        cacheMatch (getCache (HandleFetch envA stMiss "https://example.com/p.png" false).st
            rrMiss.name) "https://example.com/p.png"
          = some (envA.net "https://example.com/p.png" false))
    ∧ (IsUrlInLazyLoadList envA.regexCompiles envA.regexTest "https://example.com/p.png"
          st1Miss.lazy = true →
        envA.putOk rrMiss.name "https://example.com/p.png" = false →
        (HandleFetch envA stMiss "https://example.com/p.png" false).st = st1Miss)
    ∧ (IsUrlInLazyLoadList envA.regexCompiles envA.regexTest "https://example.com/p.png"
          st1Miss.lazy = false →
        (HandleFetch envA stMiss "https://example.com/p.png" false).st = st1Miss) :=
  miss_fetches_network_and_lazily_caches envA stMiss "https://example.com/p.png" false
    rrMiss st1Miss (by decide) rfl rfl (by decide)

/-! ## Claim C5: lazy-load pattern matching -/

/-- Claim C5, counterexample: with the pattern list ["(", "hit"] where "("
fails to compile and "hit" matches the URL, the source matcher returns
false (the whole scan is aborted by the single catch around the loop),
while the per-pattern-catch reading of the claim returns true. -/
theorem lazy_match_skips_rest_after_noncompiling_counterexample :
    IsUrlInLazyLoadList (fun p => !(p == "(")) (fun p _ => p == "hit") "hit-me"
        (some ["(", "hit"]) = false
    ∧ IsUrlInLazyLoadListPerPattern (fun p => !(p == "(")) (fun p _ => p == "hit") "hit-me"
        (some ["(", "hit"]) = true := by
  exact ⟨rfl, rfl⟩

/-- Claim C5, amended: each pattern is tested in order against the full
URL, but the compile failure is caught by the single handler around the
whole scan: the result is a match among the longest all-compiling front of
the list only, so a pattern that fails to compile is never treated as a
match and every pattern after it goes untested. -/
theorem lazy_match_scans_compiling_front (compiles : String → Bool)
    (test : String → String → Bool) (url : String) (l : List String) :
    IsUrlInLazyLoadList compiles test url (some l)
      = (l.takeWhile compiles).any (fun p => test p url) := by
  show scanLazyList compiles test url l = (l.takeWhile compiles).any (fun p => test p url)
  induction l with
  | nil => rfl
  | cons p rest ih =>
    by_cases hp : compiles p = true
    · by_cases ht : test p url = true
      · simp [scanLazyList, hp, ht, List.takeWhile_cons]
      · simp [scanLazyList, hp, ht, List.takeWhile_cons, ih]
    · simp [scanLazyList, hp, List.takeWhile_cons]

/-! ## Claim C1: populate aborts before opening the store on fetch failure -/

/-- Claim C1: if any of the fetches for the file list returns a non-ok
response, CreateCacheFromFileList signals the fetch failure and leaves the
state exactly as it was: no generation is created or opened and no
succeeding response is persisted; in particular a target name absent
before is absent after. -/
theorem populate_fetch_failure_leaves_state_unchanged (env : Env) (st : SWState)
    (cacheName : String) (fileList : List String) (bypassCache : Bool)
    (h : ∃ u ∈ fileList, (env.net u bypassCache).ok = false) :
    (CreateCacheFromFileList env st cacheName fileList bypassCache).err
        = some PopulateFailure.fetchNotOk
    ∧ (CreateCacheFromFileList env st cacheName fileList bypassCache).st = st
    ∧ (cachesHas st cacheName = false →
        cachesHas (CreateCacheFromFileList env st cacheName fileList bypassCache).st cacheName
          = false) := by
  obtain ⟨u, hu, hbad⟩ := h
  have hall : (fileList.map (fun v => env.net v bypassCache)).all (fun r => r.ok) = false := by
    rw [List.all_eq_false]
    exact ⟨env.net u bypassCache, List.mem_map_of_mem _ hu, by simp [hbad]⟩
  unfold CreateCacheFromFileList
  simp [hall]

/-- Witness for C1 at a concrete input: fetching "bad" fails, so populate
reports fetchNotOk and the empty state is untouched. -/
theorem populate_fetch_failure_leaves_state_unchanged_witness :
    (∃ u ∈ ["a.js", "bad"], (envA.net u true).ok = false)
    ∧ ((CreateCacheFromFileList envA st0 gen2 ["a.js", "bad"] true).err
          = some PopulateFailure.fetchNotOk
        ∧ (CreateCacheFromFileList envA st0 gen2 ["a.js", "bad"] true).st = st0
        ∧ (cachesHas st0 gen2 = false →
            cachesHas (CreateCacheFromFileList envA st0 gen2 ["a.js", "bad"] true).st gen2
              = false)) :=
  ⟨⟨"bad", by decide, by decide⟩,
   populate_fetch_failure_leaves_state_unchanged envA st0 gen2 ["a.js", "bad"] true
     ⟨"bad", by decide, by decide⟩⟩

/-! ## Claim C7: populate write failure rolls the generation back -/

/-- Claim C7: when every fetch succeeds but writing some entry fails,
CreateCacheFromFileList deletes the just-created generation and re-signals
the write failure: the error is writeError and no cache with the target
name exists in the resulting state. -/
theorem populate_write_failure_deletes_generation (env : Env) (st : SWState)
    (cacheName : String) (fileList : List String) (bypassCache : Bool)
    (hok : ∀ u ∈ fileList, (env.net u bypassCache).ok = true)
    (hbad : ∃ u ∈ fileList, env.putOk cacheName u = false) :
    (CreateCacheFromFileList env st cacheName fileList bypassCache).err
        = some PopulateFailure.writeError
    ∧ cachesHas (CreateCacheFromFileList env st cacheName fileList bypassCache).st cacheName
        = false := by
  have hall : (fileList.map (fun v => env.net v bypassCache)).all (fun r => r.ok) = true := by
    rw [List.all_eq_true]
    intro r hr
    obtain ⟨u, hu, rfl⟩ := List.mem_map.mp hr
    simp [hok u hu]
  have hput : fileList.all (fun u => env.putOk cacheName u) = false := by
    rw [List.all_eq_false]
    obtain ⟨u, hu, hb⟩ := hbad
    exact ⟨u, hu, by simp [hb]⟩
  unfold CreateCacheFromFileList
  simp only [hall, hput]
  simp only [Bool.false_eq_true, if_false, if_true]
  refine ⟨by trivial, ?_⟩
  exact cachesHas_deleteAll _ [cacheName] cacheName (by simp)

/-- Witness for C7 at a concrete input: both fetches succeed, the put of
"wfail" fails, the generation is gone and writeError is signaled. -/
theorem populate_write_failure_deletes_generation_witness :
    (∀ u ∈ ["a.js", "wfail"], (envA.net u true).ok = true)
    ∧ (∃ u ∈ ["a.js", "wfail"], envA.putOk gen2 u = false)
    ∧ ((CreateCacheFromFileList envA st0 gen2 ["a.js", "wfail"] true).err
          = some PopulateFailure.writeError
        ∧ cachesHas (CreateCacheFromFileList envA st0 gen2 ["a.js", "wfail"] true).st gen2
            = false) :=
  ⟨by decide, ⟨"wfail", by decide, by decide⟩,
   populate_write_failure_deletes_generation envA st0 gen2 ["a.js", "wfail"] true
     (by decide) ⟨"wfail", by decide, by decide⟩⟩

/-! ## Claim C3: oldest-wins routing -/

/-- Claim C3: whenever only one generation exists, or the request is not a
navigation, or more than one client is connected, GetCacheNameToUse
returns the first generation in creation order and the state is untouched
(nothing is deleted). -/
theorem routing_returns_oldest_and_deletes_nothing (env : Env) (st : SWState)
    (doUpdateCheck : Bool)
    (h : (GetAvailableCacheNames env st).length = 1 ∨ doUpdateCheck = false
          ∨ 1 < env.clientCount) :
    GetCacheNameToUse env st (GetAvailableCacheNames env st) doUpdateCheck
      = ⟨(GetAvailableCacheNames env st).headD "", st⟩ := by
  unfold GetCacheNameToUse
  rcases h with h | h | h
  · simp [h]
  · simp [h]
  · by_cases hc : ((GetAvailableCacheNames env st).length == 1 || !doUpdateCheck) = true
    · simp [hc]
    · simp [hc, h]

/-- Witness for C3 at a concrete input: two generations, two connected
clients, a navigation request: the oldest generation is chosen and the
state is unchanged. -/
theorem routing_returns_oldest_and_deletes_nothing_witness :
    ((GetAvailableCacheNames { envA with clientCount := 2 }
        ⟨[(gen1, []), (gen2, [])], none⟩).length = 1 ∨ (true : Bool) = false
      ∨ 1 < ({ envA with clientCount := 2 } : Env).clientCount)
    ∧ GetCacheNameToUse { envA with clientCount := 2 } ⟨[(gen1, []), (gen2, [])], none⟩
        (GetAvailableCacheNames { envA with clientCount := 2 }
          ⟨[(gen1, []), (gen2, [])], none⟩) true
      = ⟨(GetAvailableCacheNames { envA with clientCount := 2 }
          ⟨[(gen1, []), (gen2, [])], none⟩).headD "", ⟨[(gen1, []), (gen2, [])], none⟩⟩ :=
  ⟨Or.inr (Or.inr (by decide)),
   routing_returns_oldest_and_deletes_nothing { envA with clientCount := 2 }
     ⟨[(gen1, []), (gen2, [])], none⟩ true (Or.inr (Or.inr (by decide)))⟩

/-! ## Claim C6: update check is idempotent once the generation exists -/

/-- Claim C6: when the cache named for the manifest version already exists,
UpdateCheck performs no fetch beyond the manifest fetch itself (the log is
exactly that one bypassing fetch), leaves the state untouched (no
generation and no stored lazy-load list modified), and broadcasts
update-pending when two or more generations exist, else up-to-date. -/
theorem update_check_noop_when_generation_exists (env : Env) (st : SWState)
    (isFirst : Bool) (m : Manifest)
    (hok : (env.net OFFLINE_DATA_FILE true).ok = true)
    (hparse : env.parse (env.net OFFLINE_DATA_FILE true).body = some m)
    (hex : cachesHas st (GetCacheVersionName env m.version) = true) :
    UpdateCheck env st isFirst =
      ⟨st, [⟨OFFLINE_DATA_FILE, true⟩],
       if IsUpdatePending env st then [Message.updatePending] else [Message.upToDate]⟩ := by
  unfold UpdateCheck
  rw [if_pos hok, hparse]
  cases hup : IsUpdatePending env st <;>
    simp [hex, hup]

/-- Witness for C6 at a concrete input: generations gen1 and gen2 exist and
the manifest names version 2 (gen2): the update check is a no-op beyond the
manifest fetch and reports update-pending. -/
theorem update_check_noop_when_generation_exists_witness :
    UpdateCheck envA ⟨[(gen1, []), (gen2, [])], none⟩ true =
      ⟨⟨[(gen1, []), (gen2, [])], none⟩, [⟨OFFLINE_DATA_FILE, true⟩],
       if IsUpdatePending envA ⟨[(gen1, []), (gen2, [])], none⟩ then [Message.updatePending]
       else [Message.upToDate]⟩ :=
  update_check_noop_when_generation_exists envA ⟨[(gen1, []), (gen2, [])], none⟩ true
    manifestW (by decide) (by decide) (by decide)

theorem createCache_log (env : Env) (st : SWState) (n : String) (l : List String) (b : Bool) :
    (CreateCacheFromFileList env st n l b).log = l.map (fun u => ⟨u, b⟩) := by
  unfold CreateCacheFromFileList
  by_cases h1 : (l.map (fun u => env.net u b)).all (fun r => r.ok) = true
  · by_cases h2 : l.all (fun u => env.putOk n u) = true
    · simp [h1, h2]
    · simp [h1, h2]
  · simp [h1]

theorem updateCheck_log_head (env : Env) (st : SWState) (isFirst : Bool) :
    (UpdateCheck env st isFirst).log.head? = some ⟨OFFLINE_DATA_FILE, true⟩ := by
  unfold UpdateCheck
  by_cases hok : (env.net OFFLINE_DATA_FILE true).ok = true
  · rw [if_pos hok]
    cases hpr : env.parse (env.net OFFLINE_DATA_FILE true).body with
    | none => rfl
    | some m =>
      by_cases hex : cachesHas st (GetCacheVersionName env m.version) = true
      · cases hup : IsUpdatePending env st <;> simp [hex, hup]
      · cases hlz : m.lazyLoad with
        | none =>
          cases hpe : (CreateCacheFromFileList env st (GetCacheVersionName env m.version)
              (buildFileList (GetMainPageUrl env) m.fileList) (!isFirst)).err with
          | none =>
            cases hup : IsUpdatePending env (CreateCacheFromFileList env st
                (GetCacheVersionName env m.version)
                (buildFileList (GetMainPageUrl env) m.fileList) (!isFirst)).st <;>
              simp [hex, hlz, hpe, hup]
          | some e => simp [hex, hlz, hpe]
        | some lz =>
          cases hpe : (CreateCacheFromFileList env { st with lazy := some lz }
              (GetCacheVersionName env m.version)
              (buildFileList (GetMainPageUrl env) m.fileList) (!isFirst)).err with
          | none =>
            cases hup : IsUpdatePending env (CreateCacheFromFileList env
                { st with lazy := some lz } (GetCacheVersionName env m.version)
                (buildFileList (GetMainPageUrl env) m.fileList) (!isFirst)).st <;>
              simp [hex, hlz, hpe, hup]
          | some e => simp [hex, hlz, hpe]
  · rw [if_neg hok]
    rfl

/-! ## Claim C10: cache-bypass policy of the update check -/

/-- Claim C10: whenever the update check reaches the populate step, its
fetch log is exactly the manifest fetch with bypass on, followed by one
fetch per file of the built file list with bypass set to the negation of
isFirst: the first (install-time) check populates with ordinary fetches,
every later check bypasses the HTTP cache; and on every check whatsoever
the first fetch is the manifest fetch with bypass on. -/
theorem file_fetch_bypass_policy (env : Env) (st : SWState) (isFirst : Bool)
    (m : Manifest)
    (hok : (env.net OFFLINE_DATA_FILE true).ok = true)
    (hparse : env.parse (env.net OFFLINE_DATA_FILE true).body = some m)
    (hnex : cachesHas st (GetCacheVersionName env m.version) = false) :
    (UpdateCheck env st isFirst).log
      = ⟨OFFLINE_DATA_FILE, true⟩
          :: (buildFileList (GetMainPageUrl env) m.fileList).map (fun u => ⟨u, !isFirst⟩)
    ∧ ∀ (env2 : Env) (st2 : SWState) (isF2 : Bool),
        (UpdateCheck env2 st2 isF2).log.head? = some ⟨OFFLINE_DATA_FILE, true⟩ := by
  refine ⟨?_, fun env2 st2 isF2 => updateCheck_log_head env2 st2 isF2⟩
  unfold UpdateCheck
  rw [if_pos hok, hparse]
  cases hlz : m.lazyLoad with
  | none =>
    cases hpe : (CreateCacheFromFileList env st (GetCacheVersionName env m.version)
        (buildFileList (GetMainPageUrl env) m.fileList) (!isFirst)).err with
    | none =>
      cases hup : IsUpdatePending env (CreateCacheFromFileList env st
          (GetCacheVersionName env m.version)
          (buildFileList (GetMainPageUrl env) m.fileList) (!isFirst)).st <;>
        simp [hnex, hlz, hpe, hup, createCache_log]
    | some e => simp [hnex, hlz, hpe, createCache_log]
  | some lz =>
    cases hpe : (CreateCacheFromFileList env { st with lazy := some lz }
        (GetCacheVersionName env m.version)
        (buildFileList (GetMainPageUrl env) m.fileList) (!isFirst)).err with
    | none =>
      cases hup : IsUpdatePending env (CreateCacheFromFileList env { st with lazy := some lz }
          (GetCacheVersionName env m.version)
          (buildFileList (GetMainPageUrl env) m.fileList) (!isFirst)).st <;>
        simp [hnex, hlz, hpe, hup, createCache_log]
    | some e => simp [hnex, hlz, hpe, createCache_log]

/-- Witness for C10 at a concrete input: a first (install) check on the
empty state populates "./", a.js, b.js with bypass off, after the manifest
fetch with bypass on. -/
theorem file_fetch_bypass_policy_witness :
    ((UpdateCheck envA st0 true).log
      = ⟨OFFLINE_DATA_FILE, true⟩
          :: (buildFileList (GetMainPageUrl envA) manifestW.fileList).map
               (fun u => ⟨u, !true⟩)
    ∧ ∀ (env2 : Env) (st2 : SWState) (isF2 : Bool),
        (UpdateCheck env2 st2 isF2).log.head? = some ⟨OFFLINE_DATA_FILE, true⟩) :=
  file_fetch_bypass_policy envA st0 true manifestW (by decide) (by decide) (by decide)

/-! ## Cache content lemmas for the populate success path -/

theorem cachesHas_putInState_self (st : SWState) (n u : String) (r : Response) :
    cachesHas (cachePutInState st n u r) n = cachesHas st n := by
  show (findCache (putInCaches st.caches n u r) n).isSome
    = (findCache st.caches n).isSome
  rw [findCache_putInCaches]
  cases findCache st.caches n <;> rfl

theorem cachesHas_putAll_self (st : SWState) (n : String) (xs : List (String × Response)) :
    cachesHas (putAllIntoCache st n xs) n = cachesHas st n := by
  induction xs generalizing st with
  | nil => rfl
  | cons a t ih =>
    show cachesHas (putAllIntoCache (cachePutInState st n a.1 a.2) n t) n = _
    rw [ih, cachesHas_putInState_self]

theorem cacheMatch_put_other (c : Cache) (u v : String) (r : Response) (h : v ≠ u) :
    cacheMatch (cachePut c u r) v = cacheMatch c v := by
  induction c with
  | nil => simp [cachePut, cacheMatch, Ne.symm h]
  | cons e rest ih =>
    by_cases he : e.1 = u
    · simp [cachePut, he, cacheMatch, Ne.symm h]
    · simp [cachePut, he, cacheMatch, ih]

theorem putAll_cacheMatch (n : String) (xs : List (String × Response)) (st : SWState)
    (hs : cachesHas st n = true) (u : String) :
    (cacheMatch (getCache (putAllIntoCache st n xs) n) u).isSome
      = (decide (u ∈ xs.map Prod.fst) || (cacheMatch (getCache st n) u).isSome) := by
  induction xs generalizing st with
  | nil => simp [putAllIntoCache]
  | cons a t ih =>
    have hs' : cachesHas (cachePutInState st n a.1 a.2) n = true := by
      rw [cachesHas_putInState_self]; exact hs
    show (cacheMatch (getCache (putAllIntoCache (cachePutInState st n a.1 a.2) n t) n) u).isSome = _
    rw [ih _ hs', getCache_putInState_self st n a.1 a.2 hs]
    by_cases hu : u = a.1
    · subst hu
      simp [cacheMatch_put_self]
    · rw [cacheMatch_put_other _ _ _ _ hu]
      have hb : (u == a.1) = false := beq_eq_false_iff_ne.mpr hu
      simp [hb]

theorem getCache_open_fresh (st : SWState) (n : String) (h : cachesHas st n = false) :
    getCache (cachesOpen st n) n = [] := by
  unfold cachesOpen
  rw [if_neg (by simp [h])]
  have hn : findCache st.caches n = none := by
    unfold cachesHas at h
    cases hf : findCache st.caches n with
    | none => rfl
    | some c => rw [hf] at h; simp at h
  show (findCache (st.caches ++ [(n, [])]) n).getD [] = []
  rw [findCache_append_none _ _ _ hn]
  simp [findCache]

theorem createCache_success_content (env : Env) (st : SWState) (n : String)
    (l : List String) (b : Bool)
    (hfetch : ∀ u ∈ l, (env.net u b).ok = true)
    (hput : ∀ u ∈ l, env.putOk n u = true)
    (hnex : cachesHas st n = false) :
    (CreateCacheFromFileList env st n l b).err = none
    ∧ cachesHas (CreateCacheFromFileList env st n l b).st n = true
    ∧ ∀ u, (cacheMatch (getCache (CreateCacheFromFileList env st n l b).st n) u).isSome
            = decide (u ∈ l) := by
  have hall : (l.map (fun v => env.net v b)).all (fun r => r.ok) = true := by
    rw [List.all_eq_true]
    intro r hr
    obtain ⟨u, hu, rfl⟩ := List.mem_map.mp hr
    simp [hfetch u hu]
  have hputall : l.all (fun u => env.putOk n u) = true := by
    rw [List.all_eq_true]
    intro u hu
    simp [hput u hu]
  have hres : CreateCacheFromFileList env st n l b
      = ⟨none, putAllIntoCache (cachesOpen st n) n (l.zip (l.map (fun v => env.net v b))),
         l.map (fun u => ⟨u, b⟩)⟩ := by
    unfold CreateCacheFromFileList
    rw [if_pos hall, if_pos hputall]
  rw [hres]
  refine ⟨rfl, ?_, ?_⟩
  · show cachesHas (putAllIntoCache (cachesOpen st n) n _) n = true
    rw [cachesHas_putAll_self]
    exact cachesHas_open_self st n
  · intro u
    rw [putAll_cacheMatch n _ _ (cachesHas_open_self st n) u,
        getCache_open_fresh st n hnex]
    rw [List.map_fst_zip _ _ (by simp)]
    simp [cacheMatch]

/-! ## Claim C8: file-list construction and populated generation content -/

/-- Claim C8: when the target generation is absent and every fetch and put
succeeds, UpdateCheck populates a generation named for the manifest
version whose stored keys are exactly the built file list: it contains
"./", the inferred main page URL whenever one was resolved, and every file
of the manifest; when no main page URL is found, the list is exactly "./"
followed by the manifest files, so no main page entry is added. -/
theorem update_check_populates_root_main_page_and_files (env : Env) (st : SWState)
    (isFirst : Bool) (m : Manifest)
    (hok : (env.net OFFLINE_DATA_FILE true).ok = true)
    (hparse : env.parse (env.net OFFLINE_DATA_FILE true).body = some m)
    (hnex : cachesHas st (GetCacheVersionName env m.version) = false)
    (hfetch : ∀ u ∈ buildFileList (GetMainPageUrl env) m.fileList,
        (env.net u (!isFirst)).ok = true)
    (hput : ∀ u ∈ buildFileList (GetMainPageUrl env) m.fileList,
        env.putOk (GetCacheVersionName env m.version) u = true) :
    cachesHas (UpdateCheck env st isFirst).st (GetCacheVersionName env m.version) = true
    ∧ (∀ u, (cacheMatch (getCache (UpdateCheck env st isFirst).st
            (GetCacheVersionName env m.version)) u).isSome
          = decide (u ∈ buildFileList (GetMainPageUrl env) m.fileList))
    ∧ "./" ∈ buildFileList (GetMainPageUrl env) m.fileList
    ∧ (GetMainPageUrl env ≠ "" →
        GetMainPageUrl env ∈ buildFileList (GetMainPageUrl env) m.fileList)
    ∧ (∀ u ∈ m.fileList, u ∈ buildFileList (GetMainPageUrl env) m.fileList)
    ∧ (GetMainPageUrl env = "" →
        buildFileList (GetMainPageUrl env) m.fileList = "./" :: m.fileList) := by
  have hbf : buildFileList (GetMainPageUrl env) m.fileList
      = if GetMainPageUrl env ≠ "" ∧ GetMainPageUrl env ∉ ("./" :: m.fileList)
        then GetMainPageUrl env :: "./" :: m.fileList
        else "./" :: m.fileList := rfl
  have hbuild₁ : "./" ∈ buildFileList (GetMainPageUrl env) m.fileList := by
    rw [hbf]
    split <;> simp
  have hbuild₂ : GetMainPageUrl env ≠ "" →
      GetMainPageUrl env ∈ buildFileList (GetMainPageUrl env) m.fileList := by
    intro h
    rw [hbf]
    split
    · exact List.mem_cons_self _ _
    · rename_i hcond
      rw [not_and, not_not] at hcond
      exact hcond h
  have hbuild₃ : ∀ u ∈ m.fileList, u ∈ buildFileList (GetMainPageUrl env) m.fileList := by
    intro u hu
    rw [hbf]
    split <;> simp [hu]
  have hbuild₄ : GetMainPageUrl env = "" →
      buildFileList (GetMainPageUrl env) m.fileList = "./" :: m.fileList := by
    intro h
    rw [hbf, if_neg]
    intro hc
    exact hc.1 h
  cases hlz : m.lazyLoad with
  | none =>
    have hc := createCache_success_content env st (GetCacheVersionName env m.version)
      (buildFileList (GetMainPageUrl env) m.fileList) (!isFirst) hfetch hput hnex
    have hst : (UpdateCheck env st isFirst).st
        = (CreateCacheFromFileList env st (GetCacheVersionName env m.version)
            (buildFileList (GetMainPageUrl env) m.fileList) (!isFirst)).st := by
      unfold UpdateCheck
      rw [if_pos hok, hparse]
      cases hup : IsUpdatePending env (CreateCacheFromFileList env st
          (GetCacheVersionName env m.version)
          (buildFileList (GetMainPageUrl env) m.fileList) (!isFirst)).st <;>
        simp [hnex, hlz, hc.1, hup]
    refine ⟨?_, ?_, hbuild₁, hbuild₂, hbuild₃, hbuild₄⟩
    · rw [hst]
      exact hc.2.1
    · intro u
      rw [hst]
      exact hc.2.2 u
  | some lz =>
    have hnex' : cachesHas { st with lazy := some lz }
        (GetCacheVersionName env m.version) = false := hnex
    have hc := createCache_success_content env { st with lazy := some lz }
      (GetCacheVersionName env m.version)
      (buildFileList (GetMainPageUrl env) m.fileList) (!isFirst) hfetch hput hnex'
    have hst : (UpdateCheck env st isFirst).st
        = (CreateCacheFromFileList env { st with lazy := some lz }
            (GetCacheVersionName env m.version)
            (buildFileList (GetMainPageUrl env) m.fileList) (!isFirst)).st := by
      unfold UpdateCheck
      rw [if_pos hok, hparse]
      cases hup : IsUpdatePending env (CreateCacheFromFileList env
          { st with lazy := some lz } (GetCacheVersionName env m.version)
          (buildFileList (GetMainPageUrl env) m.fileList) (!isFirst)).st <;>
        simp [hnex, hlz, hc.1, hup]
    refine ⟨?_, ?_, hbuild₁, hbuild₂, hbuild₃, hbuild₄⟩
    · rw [hst]
      exact hc.2.1
    · intro u
      rw [hst]
      exact hc.2.2 u

/-- Witness for C8 at a concrete input: a first check on the empty state
with manifest version 2, files a.js and b.js, and no connected client (so
no main page URL): the populated generation gen2 holds exactly "./", a.js
and b.js. -/
theorem update_check_populates_root_main_page_and_files_witness :
    cachesHas (UpdateCheck envA st0 true).st (GetCacheVersionName envA manifestW.version) = true
    ∧ (∀ u, (cacheMatch (getCache (UpdateCheck envA st0 true).st
            (GetCacheVersionName envA manifestW.version)) u).isSome
          = decide (u ∈ buildFileList (GetMainPageUrl envA) manifestW.fileList))
    ∧ "./" ∈ buildFileList (GetMainPageUrl envA) manifestW.fileList
    ∧ (GetMainPageUrl envA ≠ "" →
        GetMainPageUrl envA ∈ buildFileList (GetMainPageUrl envA) manifestW.fileList)
    ∧ (∀ u ∈ manifestW.fileList, u ∈ buildFileList (GetMainPageUrl envA) manifestW.fileList)
    ∧ (GetMainPageUrl envA = "" →
        buildFileList (GetMainPageUrl envA) manifestW.fileList = "./" :: manifestW.fileList) :=
  update_check_populates_root_main_page_and_files envA st0 true manifestW
    (by decide) (by decide) (by decide) (by decide) (by decide)

end SW
